import Mathlib

/-!
Shallow embedding of the Gutenberg dimensions-panel code
(`src/unnamed/part_000`, the dimensions hook of the block editor) and the
static style metadata table (`src/packages/blocks/src/api/constants.js`).

Style attribute values are nested JavaScript objects whose leaves are strings
(e.g. `"10px"`).  We model them with a mutual inductive: a value is a scalar
string or an object, and an object is an ordered list of key/value entries
(JavaScript objects preserve insertion order and have unique keys).
-/

set_option autoImplicit false

namespace GutenbergDims

mutual

inductive JValue where
  | str : String → JValue
  | obj : JFields → JValue
deriving DecidableEq

inductive JFields where
  | nil : JFields
  | cons : String → JValue → JFields → JFields
deriving DecidableEq

end

/-- Structural induction for `JFields` alone (the mutual recursor has two
motives, so the `induction` tactic cannot use it directly). -/
theorem JFields.inductionOn {motive : JFields → Prop} (nil : motive .nil)
    (cons : ∀ (k : String) (v : JValue) (rest : JFields),
      motive rest → motive (.cons k v rest)) : ∀ fs, motive fs
  | .nil => nil
  | .cons k v rest => cons k v rest (JFields.inductionOn nil cons rest)

mutual

/-- Mutual structural induction for `JValue`. -/
theorem jvalueMutualInd {mv : JValue → Prop} {mf : JFields → Prop}
    (hstr : ∀ s, mv (.str s)) (hobj : ∀ fs, mf fs → mv (.obj fs))
    (hnil : mf .nil)
    (hcons : ∀ (k : String) (v : JValue) (rest : JFields),
      mv v → mf rest → mf (.cons k v rest)) : ∀ v, mv v
  | .str s => hstr s
  | .obj fs => hobj fs (jfieldsMutualInd hstr hobj hnil hcons fs)

/-- Mutual structural induction for `JFields`. -/
theorem jfieldsMutualInd {mv : JValue → Prop} {mf : JFields → Prop}
    (hstr : ∀ s, mv (.str s)) (hobj : ∀ fs, mf fs → mv (.obj fs))
    (hnil : mf .nil)
    (hcons : ∀ (k : String) (v : JValue) (rest : JFields),
      mv v → mf rest → mf (.cons k v rest)) : ∀ fs, mf fs
  | .nil => hnil
  | .cons k v rest =>
      hcons k v rest (jvalueMutualInd hstr hobj hnil hcons v)
        (jfieldsMutualInd hstr hobj hnil hcons rest)

end

namespace JFields

/-- Property read `o[k]`: value of the first entry with key `k`. -/
def lookup : JFields → String → Option JValue
  | .nil, _ => none
  | .cons k v rest, key => if k = key then some v else rest.lookup key

/-- Membership test `k in o`: whether the object has an entry with key `k`. -/
def hasKey : JFields → String → Bool
  | .nil, _ => false
  | .cons k _ rest, key => k = key || rest.hasKey key

/-- Removal of every entry with key `k` (JavaScript objects have unique keys,
so at most one entry is ever removed on well-formed data). -/
def removeKey : JFields → String → JFields
  | .nil, _ => .nil
  | .cons k v rest, key =>
      if k = key then rest.removeKey key else .cons k v (rest.removeKey key)

/-- Replacement of the value at key `k`, keeping the entry position. -/
def replaceKey : JFields → String → JValue → JFields
  | .nil, _, _ => .nil
  | .cons k v rest, key, newV =>
      if k = key then .cons k newV (rest.replaceKey key newV)
      else .cons k v (rest.replaceKey key newV)

def append : JFields → JFields → JFields
  | .nil, g => g
  | .cons k v rest, g => .cons k v (rest.append g)

/-- JavaScript object-spread update `{ ...o, [k]: v }`: when `k` is already a
key its entry keeps its position and gets the new value, otherwise the new
entry is appended at the end. -/
def setKey (fs : JFields) (k : String) (v : JValue) : JFields :=
  if fs.hasKey k then fs.replaceKey k v else fs.append (.cons k v .nil)

/-- Keys of the object, in order. -/
def keys : JFields → List String
  | .nil => []
  | .cons k _ rest => k :: rest.keys

/-- Whether all keys are distinct, as in every JavaScript object. -/
def nodupKeys : JFields → Bool
  | .nil => true
  | .cons k _ rest => !(rest.hasKey k) && rest.nodupKeys

end JFields

/-- JavaScript spread `{ ...v }` of a possibly-absent value that is an object
when present.  Per the data model (spec §3) the style attribute and its
category values are nested objects, so the string case does not arise on
well-formed styles; we map it to the empty field list. -/
def topFields : Option JValue → JFields
  | some (.obj fs) => fs
  | _ => .nil

mutual

/-- Modelled from the spec: `cleanEmptyObject` is imported from `./utils`,
which is not under `src/`.  Spec §4.1/§3: after the feature fields are set to
absent the result "recursively strips empty nested objects" — "any
category/feature that becomes empty after a deletion is itself removed
(transitively) so the persisted structure carries no vacuous containers".
Per spec §8 scenario 6 the top-level style object itself remains (`{}`), so
stripping applies to the nested entries: an entry whose cleaned value is an
empty object is dropped. -/
def cleanEmptyObject : JValue → JValue
  | .str s => .str s
  | .obj fs => .obj (cleanFields fs)

/-- Entrywise part of `cleanEmptyObject`: clean each value, drop entries whose
cleaned value is an empty object. -/
def cleanFields : JFields → JFields
  | .nil => .nil
  | .cons k v rest =>
      match cleanEmptyObject v with
      | .obj .nil => cleanFields rest
      | v' => .cons k v' (cleanFields rest)

end

/-- The new style value built by the panel's `resetAll` callback
(`src/unnamed/part_000` lines 80–98):

```js
cleanEmptyObject( {
  ...style,
  dimensions: { ...style?.dimensions, height: undefined, minHeight: undefined },
  spacing: { ...style?.spacing, margin: undefined, padding: undefined },
} )
```

A key assigned `undefined` in an object literal is modelled as the key being
absent, matching the spec-modelled cleaner which strips absent/vacuous
values. -/
def resetAllStyle (style : Option JValue) : JValue :=
  let fs := topFields style
  let dims := topFields (fs.lookup "dimensions")
  let spac := topFields (fs.lookup "spacing")
  cleanEmptyObject (.obj
    (((fs.setKey "dimensions"
        (.obj ((dims.removeKey "height").removeKey "minHeight"))).setKey
      "spacing"
        (.obj ((spac.removeKey "margin").removeKey "padding")))))

/-- The `resetAll` callback as the sequence of `setAttributes` calls it makes,
each call recorded by the style value it passes.  The source makes a single
`props.setAttributes({ style: cleanEmptyObject(...) })` call. -/
def resetAll (style : Option JValue) : List JValue :=
  [resetAllStyle style]

/-- Defined from the spec's words (§4.1), for comparison with the source's
`resetAllStyle`: make one nested feature field absent — "the four feature
fields (height, minHeight under dimensions; margin, padding under spacing)
set to absent".  When the category key holds an object, the feature key is
removed inside it; otherwise nothing changes. -/
def removeNested : JFields → String → String → JFields
  | .nil, _, _ => .nil
  | .cons k v rest, cat, field =>
      if k = cat then
        match v with
        | .obj g => .cons k (.obj (g.removeKey field)) (removeNested rest cat field)
        | v => .cons k v (removeNested rest cat field)
      else .cons k v (removeNested rest cat field)

/-- Defined from the spec's words (§4.1): "produces a new style object equal
to the current one with the four feature fields (height, minHeight under
dimensions; margin, padding under spacing) set to absent, then recursively
strips empty nested objects". -/
def specResetStyle (style : Option JValue) : JValue :=
  cleanEmptyObject (.obj
    (removeNested
      (removeNested
        (removeNested
          (removeNested (topFields style) "dimensions" "height")
          "dimensions" "minHeight")
        "spacing" "margin")
      "spacing" "padding"))

/-- Whether a possibly-absent value is absent or an object. -/
def isObjOrAbsent : Option JValue → Bool
  | none => true
  | some (.obj _) => true
  | some (.str _) => false

/-- Well-formed style attribute, per the data model (spec §3): absent, or an
object with distinct keys whose `dimensions` and `spacing` categories, when
present, are themselves objects. -/
def wfStyle : Option JValue → Bool
  | none => true
  | some (.str _) => false
  | some (.obj fs) =>
      fs.nodupKeys && isObjOrAbsent (fs.lookup "dimensions")
        && isObjOrAbsent (fs.lookup "spacing")

/-- Modelled from the spec: the individual reset action `resetMargin` is
imported from `./margin`, which is not under `src/`.  Spec §4.1: each
sub-control exposes "an individual 'reset' action (removes only its own
feature field, applying the same empty-object-pruning rule)". -/
def resetMargin (style : Option JValue) : JValue :=
  cleanEmptyObject (.obj (removeNested (topFields style) "spacing" "margin"))

mutual

/-- No value inside is an empty object (checked recursively). -/
def noEmptyV : JValue → Bool
  | .str _ => true
  | .obj .nil => false
  | .obj fs => noEmptyF fs

/-- Every entry's value satisfies `noEmptyV`. -/
def noEmptyF : JFields → Bool
  | .nil => true
  | .cons _ v rest => noEmptyV v && noEmptyF rest

end

/-- The invariant of spec §3 on a style value: no category or feature
container inside it is an empty object (the top-level object itself may be
empty, as in spec §8 scenario 6). -/
def noVacuousContainers : JValue → Bool
  | .str _ => true
  | .obj fs => noEmptyF fs

/-! ### Side configuration: `useCustomSides` and `useIsDimensionsSupportValid`

`getBlockSupport( blockName, SPACING_SUPPORT_KEY )` reads the block-type
registry, which is external to this code; we pass the lookup as a function
from block names to the declared spacing support value. -/

/-- The value a feature key holds inside a spacing support object: a boolean
("all sides uniformly") or a list of declared side names. -/
inductive FeatureConfig where
  | boolV : Bool → FeatureConfig
  | sides : List String → FeatureConfig
deriving DecidableEq

/-- The spacing support declaration of a block type: absent, a plain boolean,
or an object mapping feature names to their configuration. -/
inductive SpacingSupport where
  | missing : SpacingSupport
  | boolV : Bool → SpacingSupport
  | obj : List (String × FeatureConfig) → SpacingSupport
deriving DecidableEq

def lookupFeature : List (String × FeatureConfig) → String → Option FeatureConfig
  | [], _ => none
  | (k, v) :: rest, f => if k = f then some v else lookupFeature rest f

def ALL_SIDES : List String := ["top", "right", "bottom", "left"]

def AXIAL_SIDES : List String := ["vertical", "horizontal"]

/-- Embedding of `useCustomSides` (`src/unnamed/part_000` lines 205–214).  JavaScript
semantics of the two early returns:
* `!support` — an absent declaration (and `false`) is falsy, so the function
  returns `undefined`; a boolean `true` support has no `support[feature]`
  property, so `typeof support[feature]` is not `'boolean'` and the final
  `return support[feature]` also yields `undefined`;
* `typeof support[feature] === 'boolean'` — boolean feature values return
  `undefined`;
* a missing feature key makes the final `return support[feature]` yield
  `undefined` as well. -/
def useCustomSides (getSpacingSupport : String → SpacingSupport)
    (blockName feature : String) : Option (List String) :=
  match getSpacingSupport blockName with
  | .missing => none
  | .boolV _ => none
  | .obj fields =>
      match lookupFeature fields feature with
      | some (.boolV _) => none
      | some (.sides l) => some l
      | none => none

/-- The warning text of `src/unnamed/part_000` line 236. -/
def dimensionsSupportWarning (blockName feature : String) : String :=
  "The " ++ feature ++ " support for the \"" ++ blockName ++
    "\" block can not be configured to support both axial and arbitrary sides."

/-- Embedding of `useIsDimensionsSupportValid` (`src/unnamed/part_000` lines 226–242),
returning the validity verdict together with the list of `console.warn`
messages the call emits.  Note that in JavaScript an empty `sides` array is
truthy, so the guard is decided by the two `some(...)` tests. -/
def useIsDimensionsSupportValid (getSpacingSupport : String → SpacingSupport)
    (blockName feature : String) : Bool × List String :=
  match useCustomSides getSpacingSupport blockName feature with
  | some sides =>
      if sides.any (fun side => ALL_SIDES.contains side)
          && sides.any (fun side => AXIAL_SIDES.contains side) then
        (false, [dimensionsSupportWarning blockName feature])
      else
        (true, [])
  | none => (true, [])

/-- The validity condition as claim C3 states it: the declared list is a
subset of the four individual sides or a subset of the two axial sides. -/
def specSidesValid (sides : List String) : Bool :=
  sides.all (fun side => ALL_SIDES.contains side)
    || sides.all (fun side => AXIAL_SIDES.contains side)

/-! ### Panel gating: `hasDimensionsSupport` and the early return -/

/-- Embedding of `hasDimensionsSupport` (`src/unnamed/part_000` lines 163–174).
`Platform.OS` and the four per-feature support predicates (imported from
`./height`, `./min-height`, `./padding`, `./margin`, external to this file)
are passed as parameters. -/
def hasDimensionsSupport (platformOS : String)
    (hasHeightSupport hasMinHeightSupport hasPaddingSupport hasMarginSupport :
      String → Bool) (blockName : String) : Bool :=
  if platformOS ≠ "web" then false
  else
    hasHeightSupport blockName || hasMinHeightSupport blockName
      || hasPaddingSupport blockName || hasMarginSupport blockName

/-- Embedding of `useIsDimensionsDisabled` (`src/unnamed/part_000` lines 182–191): all
four per-feature disabled flags hold. -/
def useIsDimensionsDisabled
    (heightDisabled minHeightDisabled paddingDisabled marginDisabled : Bool) :
    Bool :=
  heightDisabled && minHeightDisabled && paddingDisabled && marginDisabled

/-- The early-return guard of `DimensionsPanel` (`src/unnamed/part_000`
lines 57–67): the panel renders nothing exactly when
`isDisabled || !isSupported`. -/
def dimensionsPanelReturnsNull
    (heightDisabled minHeightDisabled paddingDisabled marginDisabled : Bool)
    (platformOS : String)
    (hasHeightSupport hasMinHeightSupport hasPaddingSupport hasMarginSupport :
      String → Bool) (blockName : String) : Bool :=
  useIsDimensionsDisabled heightDisabled minHeightDisabled paddingDisabled
      marginDisabled
    || !hasDimensionsSupport platformOS hasHeightSupport hasMinHeightSupport
        hasPaddingSupport hasMarginSupport blockName

/-! ### Style metadata table (`src/packages/blocks/src/api/constants.js`) -/

/-- One entry of `__EXPERIMENTAL_STYLE_PROPERTY`: the storage (`value`) path,
the support-declaration path, and the optional sub-property-to-side mapping
(`properties`). -/
structure StylePropertyEntry where
  value : List String
  support : List String
  properties : Option (List (String × String))
deriving DecidableEq

def lookupStyleProperty :
    List (String × StylePropertyEntry) → String → Option StylePropertyEntry
  | [], _ => none
  | (k, v) :: rest, name => if k = name then some v else lookupStyleProperty rest name

/-- Embedding of `__EXPERIMENTAL_STYLE_PROPERTY` (`constants.js` lines 15–111), entry for
entry. -/
def __EXPERIMENTAL_STYLE_PROPERTY : List (String × StylePropertyEntry) :=
  [ ("--wp--style--color--link",
      { value := ["color", "link"], support := ["color", "link"],
        properties := none }),
    ("background",
      { value := ["color", "gradient"], support := ["color", "gradients"],
        properties := none }),
    ("backgroundColor",
      { value := ["color", "background"], support := ["color"],
        properties := none }),
    ("borderColor",
      { value := ["border", "color"],
        support := ["__experimentalBorder", "color"], properties := none }),
    ("borderRadius",
      { value := ["border", "radius"],
        support := ["__experimentalBorder", "radius"],
        properties := some
          [ ("borderTopLeftRadius", "topLeft"),
            ("borderTopRightRadius", "topRight"),
            ("borderBottomLeftRadius", "bottomLeft"),
            ("borderBottomRightRadius", "bottomRight") ] }),
    ("borderStyle",
      { value := ["border", "style"],
        support := ["__experimentalBorder", "style"], properties := none }),
    ("borderWidth",
      { value := ["border", "width"],
        support := ["__experimentalBorder", "width"], properties := none }),
    ("color",
      { value := ["color", "text"], support := ["color"], properties := none }),
    ("linkColor",
      { value := ["elements", "link", "color", "text"],
        support := ["color", "link"], properties := none }),
    ("fontFamily",
      { value := ["typography", "fontFamily"],
        support := ["typography", "__experimentalFontFamily"],
        properties := none }),
    ("fontSize",
      { value := ["typography", "fontSize"],
        support := ["typography", "fontSize"], properties := none }),
    ("fontStyle",
      { value := ["typography", "fontStyle"],
        support := ["typography", "__experimentalFontStyle"],
        properties := none }),
    ("fontWeight",
      { value := ["typography", "fontWeight"],
        support := ["typography", "__experimentalFontWeight"],
        properties := none }),
    ("lineHeight",
      { value := ["typography", "lineHeight"],
        support := ["typography", "lineHeight"], properties := none }),
    ("margin",
      { value := ["spacing", "margin"], support := ["spacing", "margin"],
        properties := some
          [ ("marginTop", "top"), ("marginRight", "right"),
            ("marginBottom", "bottom"), ("marginLeft", "left") ] }),
    ("padding",
      { value := ["spacing", "padding"], support := ["spacing", "padding"],
        properties := some
          [ ("paddingTop", "top"), ("paddingRight", "right"),
            ("paddingBottom", "bottom"), ("paddingLeft", "left") ] }),
    ("textDecoration",
      { value := ["typography", "textDecoration"],
        support := ["typography", "__experimentalTextDecoration"],
        properties := none }),
    ("textTransform",
      { value := ["typography", "textTransform"],
        support := ["typography", "__experimentalTextTransform"],
        properties := none }),
    ("letterSpacing",
      { value := ["typography", "letterSpacing"],
        support := ["__experimentalLetterSpacing"], properties := none }) ]

/-! ### Helper lemmas about objects -/

namespace JFields

theorem lookup_eq_none_of_hasKey_false {fs : JFields} {k : String}
    (h : fs.hasKey k = false) : fs.lookup k = none := by
  induction fs using JFields.inductionOn with
  | nil => rfl
  | cons a b rest ih =>
      simp only [hasKey, Bool.or_eq_false_iff, decide_eq_false_iff_not] at h
      simp only [lookup, if_neg h.1, ih h.2]

theorem hasKey_eq_true_of_lookup {fs : JFields} {k : String} {v : JValue}
    (h : fs.lookup k = some v) : fs.hasKey k = true := by
  induction fs using JFields.inductionOn with
  | nil => simp [lookup] at h
  | cons a b rest ih =>
      by_cases hak : a = k
      · simp [hasKey, hak]
      · simp only [lookup, if_neg hak] at h
        simp [hasKey, ih h]

theorem replaceKey_of_hasKey_false {fs : JFields} {k : String} {v : JValue}
    (h : fs.hasKey k = false) : fs.replaceKey k v = fs := by
  induction fs using JFields.inductionOn with
  | nil => rfl
  | cons a b rest ih =>
      simp only [hasKey, Bool.or_eq_false_iff, decide_eq_false_iff_not] at h
      simp only [replaceKey, if_neg h.1, ih h.2]

theorem removeKey_of_hasKey_false {fs : JFields} {k : String}
    (h : fs.hasKey k = false) : fs.removeKey k = fs := by
  induction fs using JFields.inductionOn with
  | nil => rfl
  | cons a b rest ih =>
      simp only [hasKey, Bool.or_eq_false_iff, decide_eq_false_iff_not] at h
      simp only [removeKey, if_neg h.1, ih h.2]

theorem hasKey_removeKey_self (fs : JFields) (k : String) :
    (fs.removeKey k).hasKey k = false := by
  induction fs using JFields.inductionOn with
  | nil => rfl
  | cons a b rest ih =>
      by_cases hak : a = k
      · simp [removeKey, hak, ih]
      · simp [removeKey, hak, hasKey, ih]

theorem hasKey_replaceKey (fs : JFields) (k k' : String) (v : JValue) :
    (fs.replaceKey k v).hasKey k' = fs.hasKey k' := by
  induction fs using JFields.inductionOn with
  | nil => rfl
  | cons a b rest ih =>
      by_cases hak : a = k
      · simp [replaceKey, hak, hasKey, ih]
      · simp [replaceKey, hak, hasKey, ih]

theorem lookup_replaceKey_self {fs : JFields} {k : String} (v : JValue)
    (h : fs.hasKey k = true) : (fs.replaceKey k v).lookup k = some v := by
  induction fs using JFields.inductionOn with
  | nil => simp [hasKey] at h
  | cons a b rest ih =>
      by_cases hak : a = k
      · simp [replaceKey, hak, lookup]
      · simp only [hasKey, decide_eq_true_eq, Bool.or_eq_true] at h
        rcases h with h | h
        · exact absurd h hak
        · simp [replaceKey, hak, lookup, ih h]

theorem lookup_replaceKey_ne {k k' : String} (fs : JFields) (v : JValue)
    (h : k ≠ k') : (fs.replaceKey k v).lookup k' = fs.lookup k' := by
  induction fs using JFields.inductionOn with
  | nil => rfl
  | cons a b rest ih =>
      by_cases hak : a = k
      · subst hak
        simp [replaceKey, lookup, if_neg h, ih]
      · by_cases hak' : a = k'
        · subst hak'
          simp [replaceKey, if_neg hak, lookup]
        · simp [replaceKey, hak, lookup, hak', ih]

theorem replaceKey_replaceKey (fs : JFields) (k : String) (a b : JValue) :
    (fs.replaceKey k a).replaceKey k b = fs.replaceKey k b := by
  induction fs using JFields.inductionOn with
  | nil => rfl
  | cons x y rest ih =>
      by_cases hxk : x = k
      · simp [replaceKey, hxk, ih]
      · simp [replaceKey, hxk, ih]

theorem nodupKeys_replaceKey {fs : JFields} (k : String) (v : JValue)
    (h : fs.nodupKeys = true) : (fs.replaceKey k v).nodupKeys = true := by
  induction fs using JFields.inductionOn with
  | nil => rfl
  | cons a b rest ih =>
      simp only [nodupKeys, Bool.and_eq_true, Bool.not_eq_true'] at h
      by_cases hak : a = k
      · subst hak
        simp [replaceKey, nodupKeys, hasKey_replaceKey, h.1, ih h.2]
      · simp [replaceKey, hak, nodupKeys, hasKey_replaceKey, h.1, ih h.2]

theorem append_nil (fs : JFields) : fs.append .nil = fs := by
  induction fs using JFields.inductionOn with
  | nil => rfl
  | cons a b rest ih => simp [append, ih]

theorem hasKey_append (fs g : JFields) (k : String) :
    (fs.append g).hasKey k = (fs.hasKey k || g.hasKey k) := by
  induction fs using JFields.inductionOn with
  | nil => simp [append, hasKey]
  | cons a b rest ih =>
      by_cases hak : a = k
      · simp [append, hasKey, hak]
      · simp [append, hasKey, hak, ih]

theorem lookup_append (fs g : JFields) (k : String) :
    (fs.append g).lookup k =
      match fs.lookup k with
      | some v => some v
      | none => g.lookup k := by
  induction fs using JFields.inductionOn with
  | nil => simp [append, lookup]
  | cons a b rest ih =>
      by_cases hak : a = k
      · simp [append, lookup, hak]
      · simp [append, lookup, hak, ih]

theorem nodupKeys_append_single {fs : JFields} {k : String} (v : JValue)
    (hnd : fs.nodupKeys = true) (hk : fs.hasKey k = false) :
    (fs.append (.cons k v .nil)).nodupKeys = true := by
  induction fs using JFields.inductionOn with
  | nil => simp [append, nodupKeys, hasKey]
  | cons a b rest ih =>
      simp only [nodupKeys, Bool.and_eq_true, Bool.not_eq_true'] at hnd
      simp only [hasKey, Bool.or_eq_false_iff, decide_eq_false_iff_not] at hk
      have hka : ¬(k = a) := fun h => hk.1 h.symm
      simp [append, nodupKeys, hasKey_append, hnd.1, ih hnd.2 hk.2, hasKey, hka]

theorem nodupKeys_setKey {fs : JFields} (k : String) (v : JValue)
    (h : fs.nodupKeys = true) : (fs.setKey k v).nodupKeys = true := by
  unfold setKey
  by_cases hk : fs.hasKey k = true
  · simp [hk, nodupKeys_replaceKey k v h]
  · simp only [Bool.not_eq_true] at hk
    simp [hk, nodupKeys_append_single v h hk]

theorem hasKey_setKey_self (fs : JFields) (k : String) (v : JValue) :
    (fs.setKey k v).hasKey k = true := by
  unfold setKey
  by_cases hk : fs.hasKey k = true
  · simp [hk, hasKey_replaceKey]
  · simp only [Bool.not_eq_true] at hk
    simp [hk, hasKey_append, hasKey]

theorem lookup_setKey_ne {k k' : String} (fs : JFields) (v : JValue)
    (h : k ≠ k') : (fs.setKey k v).lookup k' = fs.lookup k' := by
  unfold setKey
  by_cases hk : fs.hasKey k = true
  · simp [hk, lookup_replaceKey_ne fs v h]
  · simp only [Bool.not_eq_true] at hk
    simp only [hk, Bool.false_eq_true, if_false, lookup_append]
    cases hlk : fs.lookup k' with
    | some w => simp
    | none => simp [lookup, if_neg (fun hh => h hh)]

theorem hasKey_setKey_ne {k k' : String} (fs : JFields) (v : JValue)
    (h : k ≠ k') : (fs.setKey k v).hasKey k' = fs.hasKey k' := by
  unfold setKey
  by_cases hk : fs.hasKey k = true
  · simp [hk, hasKey_replaceKey]
  · simp only [Bool.not_eq_true] at hk
    simp [hk, hasKey_append, hasKey, fun hh => h hh]

theorem hasKey_eq_false_of_lookup_none {fs : JFields} {k : String}
    (h : fs.lookup k = none) : fs.hasKey k = false := by
  induction fs using JFields.inductionOn with
  | nil => rfl
  | cons a b rest ih =>
      by_cases hak : a = k
      · simp [lookup, hak] at h
      · simp only [lookup, if_neg hak] at h
        simp [hasKey, hak, ih h]

end JFields

theorem removeNested_of_hasKey_false {fs : JFields} {c : String} (f : String)
    (h : fs.hasKey c = false) : removeNested fs c f = fs := by
  induction fs using JFields.inductionOn with
  | nil => rfl
  | cons a b rest ih =>
      simp only [JFields.hasKey, Bool.or_eq_false_iff,
        decide_eq_false_iff_not] at h
      simp [removeNested, if_neg h.1, ih h.2]

theorem removeNested_eq_replaceKey {fs : JFields} {c : String} {g : JFields}
    (f : String) (hnd : fs.nodupKeys = true)
    (h : fs.lookup c = some (.obj g)) :
    removeNested fs c f = fs.replaceKey c (.obj (g.removeKey f)) := by
  induction fs using JFields.inductionOn with
  | nil => simp [JFields.lookup] at h
  | cons a b rest ih =>
      simp only [JFields.nodupKeys, Bool.and_eq_true, Bool.not_eq_true'] at hnd
      by_cases hac : a = c
      · subst hac
        simp only [JFields.lookup, if_pos] at h
        have hb : b = .obj g := by simpa using h
        subst hb
        simp [removeNested, JFields.replaceKey,
          removeNested_of_hasKey_false f hnd.1,
          JFields.replaceKey_of_hasKey_false hnd.1]
      · simp only [JFields.lookup, if_neg hac] at h
        simp [removeNested, hac, JFields.replaceKey, ih hnd.2 h]

theorem removeNested_append (fs g : JFields) (c f : String) :
    removeNested (fs.append g) c f
      = (removeNested fs c f).append (removeNested g c f) := by
  induction fs using JFields.inductionOn with
  | nil => rfl
  | cons a b rest ih =>
      by_cases hac : a = c
      · subst hac
        cases b with
        | str s => simp [JFields.append, removeNested, ih]
        | obj gg => simp [JFields.append, removeNested, ih]
      · simp [JFields.append, removeNested, hac, ih]

theorem cleanFields_append (fs g : JFields) :
    cleanFields (fs.append g) = (cleanFields fs).append (cleanFields g) := by
  induction fs using JFields.inductionOn with
  | nil => rfl
  | cons k v rest ih =>
      show cleanFields (.cons k v (rest.append g)) = _
      cases hcv : cleanEmptyObject v with
      | str s => simp [cleanFields, hcv, JFields.append, ih]
      | obj fs' =>
          cases fs' with
          | nil => simp [cleanFields, hcv, ih]
          | cons a b r => simp [cleanFields, hcv, JFields.append, ih]

/-- One category step of the `resetAll` merge: spreading the category with its
feature keys removed and then cleaning agrees with the spec's "set the feature
fields to absent, then strip" on that category. -/
theorem cleanFields_setKey_cat (fs : JFields) (c f1 f2 : String)
    (hnd : fs.nodupKeys = true) (hobj : isObjOrAbsent (fs.lookup c) = true) :
    cleanFields (fs.setKey c
        (.obj (((topFields (fs.lookup c)).removeKey f1).removeKey f2)))
      = cleanFields (removeNested (removeNested fs c f1) c f2) := by
  cases hlc : fs.lookup c with
  | none =>
      have hk : fs.hasKey c = false := JFields.hasKey_eq_false_of_lookup_none hlc
      rw [removeNested_of_hasKey_false f1 hk, removeNested_of_hasKey_false f2 hk]
      show cleanFields (fs.setKey c (.obj ((JFields.nil.removeKey f1).removeKey f2)))
        = cleanFields fs
      unfold JFields.setKey
      rw [hk]
      show cleanFields (fs.append (.cons c (.obj .nil) .nil)) = cleanFields fs
      rw [cleanFields_append]
      show (cleanFields fs).append .nil = cleanFields fs
      exact JFields.append_nil _
  | some v =>
      cases v with
      | str s => rw [hlc] at hobj; simp [isObjOrAbsent] at hobj
      | obj g =>
          have hk : fs.hasKey c = true := JFields.hasKey_eq_true_of_lookup hlc
          rw [removeNested_eq_replaceKey f1 hnd hlc,
            removeNested_eq_replaceKey f2 (JFields.nodupKeys_replaceKey c _ hnd)
              (JFields.lookup_replaceKey_self _ hk),
            JFields.replaceKey_replaceKey]
          show cleanFields (fs.setKey c (.obj ((g.removeKey f1).removeKey f2))) = _
          unfold JFields.setKey
          rw [hk]
          rfl

/-- The source's `resetAll` style payload coincides with the spec's
description of the reset-all transformation on every well-formed style. -/
theorem resetAllStyle_eq_specResetStyle (style : Option JValue)
    (h : wfStyle style = true) : resetAllStyle style = specResetStyle style := by
  match style with
  | none => rfl
  | some (.str s) => simp [wfStyle] at h
  | some (.obj fs) =>
      simp only [wfStyle, Bool.and_eq_true] at h
      obtain ⟨⟨hnd, hdim⟩, hspc⟩ := h
      show cleanEmptyObject (.obj ((fs.setKey "dimensions"
          (.obj (((topFields (fs.lookup "dimensions")).removeKey
            "height").removeKey "minHeight"))).setKey "spacing"
          (.obj (((topFields (fs.lookup "spacing")).removeKey
            "margin").removeKey "padding"))))
        = cleanEmptyObject (.obj (removeNested (removeNested
            (removeNested (removeNested fs "dimensions" "height")
              "dimensions" "minHeight") "spacing" "margin") "spacing" "padding"))
      show JValue.obj _ = JValue.obj _
      congr 1
      have hlkne : (fs.setKey "dimensions"
          (.obj (((topFields (fs.lookup "dimensions")).removeKey
            "height").removeKey "minHeight"))).lookup "spacing"
          = fs.lookup "spacing" :=
        JFields.lookup_setKey_ne _ _ (by decide)
      rw [← hlkne]
      rw [cleanFields_setKey_cat _ "spacing" "margin" "padding"
        (JFields.nodupKeys_setKey _ _ hnd) (by rw [hlkne]; exact hspc)]
      cases hld : fs.lookup "dimensions" with
      | none =>
          have hk : fs.hasKey "dimensions" = false :=
            JFields.hasKey_eq_false_of_lookup_none hld
          rw [removeNested_of_hasKey_false "height" hk,
            removeNested_of_hasKey_false "minHeight" hk]
          show cleanFields (removeNested (removeNested
              (fs.setKey "dimensions" (.obj .nil)) "spacing" "margin")
              "spacing" "padding") = _
          unfold JFields.setKey
          rw [hk]
          show cleanFields (removeNested (removeNested
              (fs.append (.cons "dimensions" (.obj .nil) .nil))
              "spacing" "margin") "spacing" "padding") = _
          rw [removeNested_append, removeNested_append, cleanFields_append]
          show (cleanFields _).append (cleanFields (removeNested (removeNested
              (.cons "dimensions" (.obj .nil) .nil) "spacing" "margin")
              "spacing" "padding")) = _
          rw [show removeNested (removeNested
              (.cons "dimensions" (.obj .nil) .nil) "spacing" "margin")
              "spacing" "padding" = .cons "dimensions" (.obj .nil) .nil by rfl]
          rw [show cleanFields (.cons "dimensions" (.obj .nil) .nil)
            = .nil by rfl]
          exact JFields.append_nil _
      | some v =>
          cases v with
          | str s => rw [hld] at hdim; simp [isObjOrAbsent] at hdim
          | obj g =>
              have hk : fs.hasKey "dimensions" = true :=
                JFields.hasKey_eq_true_of_lookup hld
              rw [removeNested_eq_replaceKey "height" hnd hld,
                removeNested_eq_replaceKey "minHeight"
                  (JFields.nodupKeys_replaceKey _ _ hnd)
                  (JFields.lookup_replaceKey_self _ hk),
                JFields.replaceKey_replaceKey]
              show cleanFields (removeNested (removeNested
                  (fs.setKey "dimensions"
                    (.obj ((g.removeKey "height").removeKey "minHeight")))
                  "spacing" "margin") "spacing" "padding") = _
              unfold JFields.setKey
              rw [hk, if_pos rfl]

/-- Cleaned field lists contain no vacuous containers. -/
theorem noEmptyF_cleanFields : ∀ fs : JFields, noEmptyF (cleanFields fs) = true := by
  have hmut := @jfieldsMutualInd
    (fun v => noEmptyV (cleanEmptyObject v) = true ∨ cleanEmptyObject v = .obj .nil)
    (fun fs => noEmptyF (cleanFields fs) = true)
    (fun s => Or.inl rfl)
    (fun fs hf => by
      cases hcf : cleanFields fs with
      | nil => exact Or.inr (by simp [cleanEmptyObject, hcf])
      | cons a b r =>
          refine Or.inl ?_
          have hf' : noEmptyF (cleanFields fs) = true := hf
          show noEmptyV (.obj (cleanFields fs)) = true
          rw [hcf]
          show noEmptyF (.cons a b r) = true
          rw [← hcf]
          exact hf')
    rfl
    (fun k v rest hv hrest => by
      cases hcv : cleanEmptyObject v with
      | str s => simp [cleanFields, hcv, noEmptyF, noEmptyV, hrest]
      | obj g =>
          cases g with
          | nil => simp [cleanFields, hcv, hrest]
          | cons a b r =>
              rcases hv with hv | hv
              · rw [hcv] at hv
                simp [cleanFields, hcv, noEmptyF, hv, hrest]
              · rw [hcv] at hv
                exact absurd hv (by simp))
  exact hmut

/-- Cleaning is idempotent. -/
theorem cleanEmptyObject_idem :
    ∀ v : JValue, cleanEmptyObject (cleanEmptyObject v) = cleanEmptyObject v := by
  have hmut := @jvalueMutualInd
    (fun v => cleanEmptyObject (cleanEmptyObject v) = cleanEmptyObject v)
    (fun fs => cleanFields (cleanFields fs) = cleanFields fs)
    (fun s => rfl)
    (fun fs hf => by simp [cleanEmptyObject, hf])
    rfl
    (fun k v rest hv hrest => by
      have hv' : cleanEmptyObject (cleanEmptyObject v) = cleanEmptyObject v := hv
      have hrest' : cleanFields (cleanFields rest) = cleanFields rest := hrest
      cases hcv : cleanEmptyObject v with
      | str s => simp [cleanFields, cleanEmptyObject, hcv, hrest']
      | obj g =>
          cases g with
          | nil => simp [cleanFields, hcv, hrest']
          | cons a b r =>
              rw [hcv] at hv'
              simp [cleanFields, hcv, hv', hrest'])
  exact hmut

/-- Fields-level form of `cleanEmptyObject_idem`. -/
theorem cleanFields_idem :
    ∀ fs : JFields, cleanFields (cleanFields fs) = cleanFields fs := by
  have hmut := @jfieldsMutualInd
    (fun v => cleanEmptyObject (cleanEmptyObject v) = cleanEmptyObject v)
    (fun fs => cleanFields (cleanFields fs) = cleanFields fs)
    (fun s => rfl)
    (fun fs hf => by simp [cleanEmptyObject, hf])
    rfl
    (fun k v rest hv hrest => by
      have hv' : cleanEmptyObject (cleanEmptyObject v) = cleanEmptyObject v := hv
      have hrest' : cleanFields (cleanFields rest) = cleanFields rest := hrest
      cases hcv : cleanEmptyObject v with
      | str s => simp [cleanFields, cleanEmptyObject, hcv, hrest']
      | obj g =>
          cases g with
          | nil => simp [cleanFields, hcv, hrest']
          | cons a b r =>
              rw [hcv] at hv'
              simp [cleanFields, hcv, hv', hrest'])
  exact hmut

namespace JFields

/-- Every entry with key `k` holds the value `v`. -/
def allKeyVal : JFields → String → JValue → Prop
  | .nil, _, _ => True
  | .cons a b rest, k, v => (a = k → b = v) ∧ allKeyVal rest k v

theorem allKeyVal_of_hasKey_false {fs : JFields} {k : String} (v : JValue)
    (h : fs.hasKey k = false) : allKeyVal fs k v := by
  induction fs using JFields.inductionOn with
  | nil => trivial
  | cons a b rest ih =>
      simp only [hasKey, Bool.or_eq_false_iff, decide_eq_false_iff_not] at h
      exact ⟨fun hak => absurd hak h.1, ih h.2⟩

theorem allKeyVal_replaceKey_self (fs : JFields) (k : String) (v : JValue) :
    allKeyVal (fs.replaceKey k v) k v := by
  induction fs using JFields.inductionOn with
  | nil => trivial
  | cons a b rest ih =>
      by_cases hak : a = k
      · simp only [replaceKey, if_pos hak]
        exact ⟨fun _ => rfl, ih⟩
      · simp only [replaceKey, if_neg hak]
        exact ⟨fun hh => absurd hh hak, ih⟩

theorem allKeyVal_append {fs g : JFields} {k : String} {v : JValue}
    (hf : allKeyVal fs k v) (hg : allKeyVal g k v) :
    allKeyVal (fs.append g) k v := by
  induction fs using JFields.inductionOn with
  | nil => exact hg
  | cons a b rest ih => exact ⟨hf.1, ih hf.2⟩

theorem allKeyVal_setKey_self (fs : JFields) (k : String) (v : JValue) :
    allKeyVal (fs.setKey k v) k v := by
  unfold setKey
  by_cases hk : fs.hasKey k = true
  · simpa [hk] using allKeyVal_replaceKey_self fs k v
  · simp only [Bool.not_eq_true] at hk
    simp only [hk, Bool.false_eq_true, if_false]
    exact allKeyVal_append (allKeyVal_of_hasKey_false v hk)
      ⟨fun _ => rfl, trivial⟩

theorem allKeyVal_replaceKey_ne {fs : JFields} {k k' : String} {v : JValue}
    (w : JValue) (hne : k' ≠ k) (h : allKeyVal fs k v) :
    allKeyVal (fs.replaceKey k' w) k v := by
  induction fs using JFields.inductionOn with
  | nil => trivial
  | cons a b rest ih =>
      by_cases hak : a = k'
      · simp only [replaceKey, if_pos hak]
        exact ⟨fun hh => absurd (hak ▸ hh) hne, ih h.2⟩
      · simp only [replaceKey, if_neg hak]
        exact ⟨h.1, ih h.2⟩

theorem allKeyVal_setKey_ne {fs : JFields} {k k' : String} {v : JValue}
    (w : JValue) (hne : k' ≠ k) (h : allKeyVal fs k v) :
    allKeyVal (fs.setKey k' w) k v := by
  unfold setKey
  by_cases hk : fs.hasKey k' = true
  · simpa [hk] using allKeyVal_replaceKey_ne w hne h
  · simp only [Bool.not_eq_true] at hk
    simp only [hk, Bool.false_eq_true, if_false]
    exact allKeyVal_append h ⟨fun hh => absurd hh hne, trivial⟩

theorem lookup_allKeyVal {fs : JFields} {k : String} {v w : JValue}
    (h : allKeyVal fs k v) (hl : fs.lookup k = some w) : w = v := by
  induction fs using JFields.inductionOn with
  | nil => simp [lookup] at hl
  | cons a b rest ih =>
      by_cases hak : a = k
      · simp only [lookup, if_pos hak, Option.some.injEq] at hl
        exact hl ▸ h.1 hak
      · simp only [lookup, if_neg hak] at hl
        exact ih h.2 hl

theorem replaceKey_allKeyVal_id {fs : JFields} {k : String} {v : JValue}
    (h : allKeyVal fs k v) : fs.replaceKey k v = fs := by
  induction fs using JFields.inductionOn with
  | nil => rfl
  | cons a b rest ih =>
      by_cases hak : a = k
      · simp [replaceKey, if_pos hak, h.1 hak, ih h.2]
      · simp [replaceKey, if_neg hak, ih h.2]

theorem replaceKey_append (fs g : JFields) (k : String) (v : JValue) :
    (fs.append g).replaceKey k v
      = (fs.replaceKey k v).append (g.replaceKey k v) := by
  induction fs using JFields.inductionOn with
  | nil => rfl
  | cons a b rest ih =>
      by_cases hak : a = k
      · simp [append, replaceKey, hak, ih]
      · simp [append, replaceKey, hak, ih]

theorem hasKey_removeKey_other {fs : JFields} {k : String} (k' : String)
    (h : fs.hasKey k = false) : (fs.removeKey k').hasKey k = false := by
  induction fs using JFields.inductionOn with
  | nil => rfl
  | cons a b rest ih =>
      simp only [hasKey, Bool.or_eq_false_iff, decide_eq_false_iff_not] at h
      by_cases hak : a = k'
      · simp [removeKey, hak, ih h.2]
      · simp [removeKey, hak, hasKey, h.1, ih h.2]

end JFields

/-- Key absence survives cleaning. -/
theorem hasKey_cleanFields_false {fs : JFields} {k : String}
    (h : fs.hasKey k = false) : (cleanFields fs).hasKey k = false := by
  induction fs using JFields.inductionOn with
  | nil => rfl
  | cons a b rest ih =>
      simp only [JFields.hasKey, Bool.or_eq_false_iff,
        decide_eq_false_iff_not] at h
      cases hcv : cleanEmptyObject b with
      | str s => simp [cleanFields, hcv, JFields.hasKey, h.1, ih h.2]
      | obj g =>
          cases g with
          | nil => simp [cleanFields, hcv, ih h.2]
          | cons x y r => simp [cleanFields, hcv, JFields.hasKey, h.1, ih h.2]

/-- Cleaning maps an entry value pointwise. -/
theorem allKeyVal_cleanFields {fs : JFields} {k : String} {v : JValue}
    (h : JFields.allKeyVal fs k v) :
    JFields.allKeyVal (cleanFields fs) k (cleanEmptyObject v) := by
  induction fs using JFields.inductionOn with
  | nil => trivial
  | cons a b rest ih =>
      cases hcv : cleanEmptyObject b with
      | str s =>
          simp only [cleanFields, hcv]
          exact ⟨fun hak => by rw [← hcv, h.1 hak], ih h.2⟩
      | obj g =>
          cases g with
          | nil =>
              simp only [cleanFields, hcv]
              exact ih h.2
          | cons x y r =>
              simp only [cleanFields, hcv]
              exact ⟨fun hak => by rw [← hcv, h.1 hak], ih h.2⟩

/-- Field lists produced by one `resetAll` merge are fixed points of the
merge: the categories already carry their post-reset values, so spreading and
cleaning again changes nothing. -/
theorem cleanFields_reset_fixed_point {u CD CS : JFields}
    (hu : cleanFields u = u)
    (hud : JFields.allKeyVal u "dimensions" (.obj CD))
    (hus : JFields.allKeyVal u "spacing" (.obj CS))
    (hCDh : CD.hasKey "height" = false)
    (hCDmh : CD.hasKey "minHeight" = false)
    (hCSm : CS.hasKey "margin" = false)
    (hCSp : CS.hasKey "padding" = false) :
    cleanFields ((u.setKey "dimensions"
        (.obj (((topFields (u.lookup "dimensions")).removeKey
          "height").removeKey "minHeight"))).setKey "spacing"
        (.obj (((topFields (u.lookup "spacing")).removeKey
          "margin").removeKey "padding"))) = u := by
  have hds : ("dimensions" : String) ≠ "spacing" := by decide
  cases hdl : u.lookup "dimensions" with
  | some w =>
      have hw : w = .obj CD := JFields.lookup_allKeyVal hud hdl
      subst hw
      have hkd : u.hasKey "dimensions" = true :=
        JFields.hasKey_eq_true_of_lookup hdl
      have hstep1 : u.setKey "dimensions"
          (.obj (((topFields (some (JValue.obj CD))).removeKey
            "height").removeKey "minHeight")) = u := by
        show u.setKey "dimensions"
          (.obj ((CD.removeKey "height").removeKey "minHeight")) = u
        rw [JFields.removeKey_of_hasKey_false hCDh,
          JFields.removeKey_of_hasKey_false hCDmh]
        unfold JFields.setKey
        rw [hkd, if_pos rfl]
        exact JFields.replaceKey_allKeyVal_id hud
      rw [hstep1]
      cases hsl : u.lookup "spacing" with
      | some w' =>
          have hw' : w' = .obj CS := JFields.lookup_allKeyVal hus hsl
          subst hw'
          have hks : u.hasKey "spacing" = true :=
            JFields.hasKey_eq_true_of_lookup hsl
          have hstep2 : u.setKey "spacing"
              (.obj (((topFields (some (JValue.obj CS))).removeKey
                "margin").removeKey "padding")) = u := by
            show u.setKey "spacing"
              (.obj ((CS.removeKey "margin").removeKey "padding")) = u
            rw [JFields.removeKey_of_hasKey_false hCSm,
              JFields.removeKey_of_hasKey_false hCSp]
            unfold JFields.setKey
            rw [hks, if_pos rfl]
            exact JFields.replaceKey_allKeyVal_id hus
          rw [hstep2, hu]
      | none =>
          have hks : u.hasKey "spacing" = false :=
            JFields.hasKey_eq_false_of_lookup_none hsl
          show cleanFields (u.setKey "spacing" (.obj .nil)) = u
          unfold JFields.setKey
          rw [hks]
          show cleanFields (u.append (.cons "spacing" (.obj .nil) .nil)) = u
          rw [cleanFields_append, hu]
          show u.append .nil = u
          exact JFields.append_nil u
  | none =>
      have hkd : u.hasKey "dimensions" = false :=
        JFields.hasKey_eq_false_of_lookup_none hdl
      have hstep1 : u.setKey "dimensions"
          (.obj (((topFields (none : Option JValue)).removeKey
            "height").removeKey "minHeight"))
          = u.append (.cons "dimensions" (.obj .nil) .nil) := by
        show u.setKey "dimensions" (.obj .nil) = _
        unfold JFields.setKey
        rw [hkd]
        rfl
      rw [hstep1]
      cases hsl : u.lookup "spacing" with
      | some w' =>
          have hw' : w' = .obj CS := JFields.lookup_allKeyVal hus hsl
          subst hw'
          have hks : u.hasKey "spacing" = true :=
            JFields.hasKey_eq_true_of_lookup hsl
          have hks' : (u.append (.cons "dimensions" (.obj .nil) .nil)).hasKey
              "spacing" = true := by
            rw [JFields.hasKey_append, hks]
            rfl
          have hstep2 : (u.append (.cons "dimensions" (.obj .nil) .nil)).setKey
              "spacing"
              (.obj (((topFields (some (JValue.obj CS))).removeKey
                "margin").removeKey "padding"))
              = u.append (.cons "dimensions" (.obj .nil) .nil) := by
            show (u.append (.cons "dimensions" (.obj .nil) .nil)).setKey
              "spacing" (.obj ((CS.removeKey "margin").removeKey "padding")) = _
            rw [JFields.removeKey_of_hasKey_false hCSm,
              JFields.removeKey_of_hasKey_false hCSp]
            unfold JFields.setKey
            rw [hks', if_pos rfl, JFields.replaceKey_append,
              JFields.replaceKey_allKeyVal_id hus,
              JFields.replaceKey_of_hasKey_false (by decide)]
          rw [hstep2, cleanFields_append, hu]
          show u.append .nil = u
          exact JFields.append_nil u
      | none =>
          have hks : u.hasKey "spacing" = false :=
            JFields.hasKey_eq_false_of_lookup_none hsl
          have hks' : (u.append (.cons "dimensions" (.obj .nil) .nil)).hasKey
              "spacing" = false := by
            rw [JFields.hasKey_append, hks]
            rfl
          show cleanFields ((u.append (.cons "dimensions" (.obj .nil) .nil)).setKey
            "spacing" (.obj .nil)) = u
          unfold JFields.setKey
          rw [hks']
          show cleanFields ((u.append (.cons "dimensions" (.obj .nil) .nil)).append
            (.cons "spacing" (.obj .nil) .nil)) = u
          rw [cleanFields_append, cleanFields_append, hu]
          show (u.append .nil).append .nil = u
          rw [JFields.append_nil, JFields.append_nil]

/-- Applying the reset-all style transformation to its own output changes
nothing (helper for the idempotence claim). -/
theorem resetAllStyle_fixed (style : Option JValue) :
    resetAllStyle (some (resetAllStyle style)) = resetAllStyle style := by
  have main : ∀ fsv Dv Sv : JFields,
      resetAllStyle (some (.obj (cleanFields
        ((fsv.setKey "dimensions"
            (.obj ((Dv.removeKey "height").removeKey "minHeight"))).setKey
          "spacing" (.obj ((Sv.removeKey "margin").removeKey "padding"))))))
      = .obj (cleanFields
        ((fsv.setKey "dimensions"
            (.obj ((Dv.removeKey "height").removeKey "minHeight"))).setKey
          "spacing" (.obj ((Sv.removeKey "margin").removeKey "padding")))) := by
    intro fsv Dv Sv
    set D := (Dv.removeKey "height").removeKey "minHeight" with hD
    set S := (Sv.removeKey "margin").removeKey "padding" with hS
    set X := (fsv.setKey "dimensions" (.obj D)).setKey "spacing" (.obj S)
      with hX
    have hXd : JFields.allKeyVal X "dimensions" (.obj D) := by
      rw [hX]
      exact JFields.allKeyVal_setKey_ne _ (by decide)
        (JFields.allKeyVal_setKey_self fsv "dimensions" (.obj D))
    have hXs : JFields.allKeyVal X "spacing" (.obj S) := by
      rw [hX]
      exact JFields.allKeyVal_setKey_self _ "spacing" (.obj S)
    have hud : JFields.allKeyVal (cleanFields X) "dimensions"
        (.obj (cleanFields D)) := allKeyVal_cleanFields hXd
    have hus : JFields.allKeyVal (cleanFields X) "spacing"
        (.obj (cleanFields S)) := allKeyVal_cleanFields hXs
    have hCDh : (cleanFields D).hasKey "height" = false := by
      rw [hD]
      exact hasKey_cleanFields_false
        (JFields.hasKey_removeKey_other "minHeight"
          (JFields.hasKey_removeKey_self Dv "height"))
    have hCDmh : (cleanFields D).hasKey "minHeight" = false := by
      rw [hD]
      exact hasKey_cleanFields_false
        (JFields.hasKey_removeKey_self _ "minHeight")
    have hCSm : (cleanFields S).hasKey "margin" = false := by
      rw [hS]
      exact hasKey_cleanFields_false
        (JFields.hasKey_removeKey_other "padding"
          (JFields.hasKey_removeKey_self Sv "margin"))
    have hCSp : (cleanFields S).hasKey "padding" = false := by
      rw [hS]
      exact hasKey_cleanFields_false
        (JFields.hasKey_removeKey_self _ "padding")
    have hu : cleanFields (cleanFields X) = cleanFields X := cleanFields_idem X
    show JValue.obj (cleanFields (((cleanFields X).setKey "dimensions"
        (.obj (((topFields ((cleanFields X).lookup "dimensions")).removeKey
          "height").removeKey "minHeight"))).setKey "spacing"
        (.obj (((topFields ((cleanFields X).lookup "spacing")).removeKey
          "margin").removeKey "padding")))) = .obj (cleanFields X)
    exact congrArg JValue.obj
      (cleanFields_reset_fixed_point hu hud hus hCDh hCDmh hCSm hCSp)
  exact main (topFields style)
    (topFields ((topFields style).lookup "dimensions"))
    (topFields ((topFields style).lookup "spacing"))

/-! ### Claim theorems -/

/-- C1: for every attributes object carrying a well-formed style object, the
panel's `resetAll` action calls the attribute setter exactly once (the call
list is a singleton), and the style value it passes equals the current style
with `dimensions.height`, `dimensions.minHeight`, `spacing.margin` and
`spacing.padding` set to absent and all resulting empty nested objects
recursively stripped — no fourfold or partial updates occur. -/
theorem resetAll_single_update_matches_spec (style : Option JValue)
    (h : wfStyle style = true) : resetAll style = [specResetStyle style] := by
  show [resetAllStyle style] = [specResetStyle style]
  rw [resetAllStyle_eq_specResetStyle style h]

theorem resetAll_single_update_matches_spec_witness :
    wfStyle (some (.obj (.cons "spacing" (.obj (.cons "margin"
      (.obj (.cons "top" (.str "10px") .nil))
      (.cons "blockGap" (.str "1em") .nil))) .nil))) = true
    ∧ resetAll (some (.obj (.cons "spacing" (.obj (.cons "margin"
        (.obj (.cons "top" (.str "10px") .nil))
        (.cons "blockGap" (.str "1em") .nil))) .nil)))
      = [specResetStyle (some (.obj (.cons "spacing" (.obj (.cons "margin"
        (.obj (.cons "top" (.str "10px") .nil))
        (.cons "blockGap" (.str "1em") .nil))) .nil)))] :=
  ⟨by decide, resetAll_single_update_matches_spec _ (by decide)⟩

/-- C2: for every style object, the style produced by the `resetAll` action
contains no empty object at any nesting level: every category or feature
container that becomes empty after the deletions is itself removed,
transitively (the top-level style object itself may be `{}`, as in spec §8
scenario 6). -/
theorem resetAll_no_vacuous_containers (style : Option JValue) :
    noVacuousContainers (resetAllStyle style) = true :=
  noEmptyF_cleanFields _

/-- C7: the reset-all transformation (delete the four feature fields, then
prune empty containers) is idempotent: applying it twice yields the same
style object as applying it once. -/
theorem resetAll_idempotent (style : Option JValue) :
    resetAllStyle (some (resetAllStyle style)) = resetAllStyle style :=
  resetAllStyle_fixed style

/-- C8: for the style `{ spacing: { margin: { top: "10px" } } }`, resetting
the margin feature produces `{}` — the `spacing` container is removed
entirely because it becomes empty — and not a style retaining an empty
`spacing` container. -/
theorem resetMargin_scenario :
    resetMargin (some (.obj (.cons "spacing" (.obj (.cons "margin"
      (.obj (.cons "top" (.str "10px") .nil)) .nil)) .nil))) = .obj .nil
    ∧ resetMargin (some (.obj (.cons "spacing" (.obj (.cons "margin"
      (.obj (.cons "top" (.str "10px") .nil)) .nil)) .nil)))
      ≠ .obj (.cons "spacing" (.obj .nil) .nil) :=
  ⟨rfl, by decide⟩

/-- Unfolding equation of the validator when custom sides are declared. -/
theorem useIsDimensionsSupportValid_eq_of_some
    {reg : String → SpacingSupport} {b f : String} {sides : List String}
    (hcs : useCustomSides reg b f = some sides) :
    useIsDimensionsSupportValid reg b f
      = if (sides.any (fun side => ALL_SIDES.contains side)
            && sides.any (fun side => AXIAL_SIDES.contains side)) = true
        then (false, [dimensionsSupportWarning b f]) else (true, []) := by
  unfold useIsDimensionsSupportValid
  rw [hcs]

/-- Unfolding equation of the validator when no custom sides are declared. -/
theorem useIsDimensionsSupportValid_eq_of_none
    {reg : String → SpacingSupport} {b f : String}
    (hcs : useCustomSides reg b f = none) :
    useIsDimensionsSupportValid reg b f = (true, []) := by
  unfold useIsDimensionsSupportValid
  rw [hcs]

/-- Registry on which the code reports "valid" although the declared list is
a subset of neither side family. -/
def sidesNotSubsetRegistry : String → SpacingSupport :=
  fun _ => .obj [("margin", .sides ["top", "foo"])]

/-- C3 fails as stated: with declared sides `["top", "foo"]` the validator
returns `true` (no side of the axial family occurs, so the mix test is
negative), yet the list is a subset of neither `{top, right, bottom, left}`
nor `{vertical, horizontal}`, falsifying the claimed "if and only if". -/
theorem useIsDimensionsSupportValid_not_subset_counterexample :
    useCustomSides sidesNotSubsetRegistry "core/group" "margin"
      = some ["top", "foo"]
    ∧ specSidesValid ["top", "foo"] = false
    ∧ useIsDimensionsSupportValid sidesNotSubsetRegistry "core/group" "margin"
      = (true, []) :=
  ⟨rfl, by decide, rfl⟩

/-- C3 (amended): the validator reports the declared sides list as valid if
and only if the list does not contain both an individual side from
`ALL_SIDES` and an axial side from `AXIAL_SIDES` (an absent configuration
being vacuously valid). -/
theorem useIsDimensionsSupportValid_iff_no_mix
    (reg : String → SpacingSupport) (blockName feature : String) :
    (useIsDimensionsSupportValid reg blockName feature).1 = true
      ↔ ∀ sides, useCustomSides reg blockName feature = some sides →
          ¬(sides.any (fun side => ALL_SIDES.contains side) = true
            ∧ sides.any (fun side => AXIAL_SIDES.contains side) = true) := by
  cases hcs : useCustomSides reg blockName feature with
  | none =>
      rw [useIsDimensionsSupportValid_eq_of_none hcs]
      simp
  | some sides =>
      rw [useIsDimensionsSupportValid_eq_of_some hcs]
      by_cases hmix : (sides.any (fun side => ALL_SIDES.contains side)
          && sides.any (fun side => AXIAL_SIDES.contains side)) = true
      · rw [if_pos hmix]
        refine iff_of_false (by simp) ?_
        intro h
        exact (h sides rfl) (by simpa using hmix)
      · rw [if_neg hmix]
        refine iff_of_true rfl ?_
        intro sides' hs hcontra
        rw [Option.some_inj] at hs
        subst hs
        exact hmix (by rw [hcontra.1, hcontra.2]; rfl)

theorem useIsDimensionsSupportValid_iff_no_mix_witness :
    ¬(List.any ["top", "foo"] (fun side => ALL_SIDES.contains side) = true
      ∧ List.any ["top", "foo"] (fun side => AXIAL_SIDES.contains side)
        = true) :=
  (useIsDimensionsSupportValid_iff_no_mix sidesNotSubsetRegistry
    "core/group" "margin").mp rfl ["top", "foo"] rfl

/-- C4: whenever the declared sides list mixes an individual side with an
axial side, the validator returns `false` and emits exactly one non-fatal
warning of the exact form
`The <feature> support for the "<blockName>" block can not be configured to
support both axial and arbitrary sides.`, mentioning both the block name and
the feature. -/
theorem useIsDimensionsSupportValid_mix_warns
    (reg : String → SpacingSupport) (blockName feature : String)
    (sides : List String)
    (h1 : useCustomSides reg blockName feature = some sides)
    (h2 : sides.any (fun side => ALL_SIDES.contains side) = true)
    (h3 : sides.any (fun side => AXIAL_SIDES.contains side) = true) :
    useIsDimensionsSupportValid reg blockName feature
      = (false, ["The " ++ feature ++ " support for the \"" ++ blockName
          ++ "\" block can not be configured to support both axial and arbitrary sides."]) := by
  rw [useIsDimensionsSupportValid_eq_of_some h1, if_pos (by rw [h2, h3]; rfl)]
  rfl

/-- Registry declaring the mixed sides list of spec §8 property 4. -/
def mixedSidesRegistry : String → SpacingSupport :=
  fun _ => .obj [("margin", .sides ["top", "vertical"])]

theorem useIsDimensionsSupportValid_mix_warns_witness :
    useCustomSides mixedSidesRegistry "core/group" "margin"
      = some ["top", "vertical"]
    ∧ useIsDimensionsSupportValid mixedSidesRegistry "core/group" "margin"
      = (false, ["The margin support for the \"core/group\" block can not be configured to support both axial and arbitrary sides."]) :=
  ⟨rfl, useIsDimensionsSupportValid_mix_warns mixedSidesRegistry "core/group"
    "margin" ["top", "vertical"] rfl (by decide) (by decide)⟩

/-- C5: `useCustomSides` returns nothing when the block has no spacing
support configuration or when the (block-level or feature-level)
configuration value is a boolean, and returns the declared list of side
identifiers exactly as configured otherwise; in particular `["top","bottom"]`
is returned verbatim and a boolean `true` support yields nothing. -/
theorem useCustomSides_cases (reg : String → SpacingSupport) (b f : String) :
    (reg b = .missing → useCustomSides reg b f = none)
    ∧ (∀ x : Bool, reg b = .boolV x → useCustomSides reg b f = none)
    ∧ (∀ fields (x : Bool), reg b = .obj fields →
        lookupFeature fields f = some (.boolV x) →
        useCustomSides reg b f = none)
    ∧ (∀ fields l, reg b = .obj fields →
        lookupFeature fields f = some (.sides l) →
        useCustomSides reg b f = some l)
    ∧ (∀ fields, reg b = .obj fields → lookupFeature fields f = none →
        useCustomSides reg b f = none)
    ∧ useCustomSides (fun _ => .obj [(f, .sides ["top", "bottom"])]) b f
        = some ["top", "bottom"]
    ∧ useCustomSides (fun _ => .boolV true) b f = none := by
  refine ⟨?_, ?_, ?_, ?_, ?_, ?_, rfl⟩
  · intro h
    simp [useCustomSides, h]
  · intro x h
    simp [useCustomSides, h]
  · intro fields x h hl
    simp [useCustomSides, h, hl]
  · intro fields l h hl
    simp [useCustomSides, h, hl]
  · intro fields h hl
    simp [useCustomSides, h, hl]
  · simp [useCustomSides, lookupFeature]

theorem useCustomSides_cases_witness :
    useCustomSides (fun _ => .missing) "core/group" "margin" = none
    ∧ useCustomSides (fun _ => .obj [("margin", .sides ["top", "bottom"])])
        "core/group" "margin" = some ["top", "bottom"] :=
  ⟨(useCustomSides_cases (fun _ => .missing) "core/group" "margin").1 rfl,
   (useCustomSides_cases
      (fun _ => .obj [("margin", .sides ["top", "bottom"])])
      "core/group" "margin").2.2.2.2.2.1⟩

/-- C6: the dimensions panel renders nothing when the platform is not web,
when the block declares support for none of height, minHeight, margin,
padding, or when all four features are individually disabled; equivalently
`hasDimensionsSupport` returns `false` whenever the platform is not web or
none of the four features is supported. -/
theorem hasDimensionsSupport_gates_panel (platformOS : String)
    (hhs hmhs hps hms : String → Bool) (b : String)
    (hD mhD pD mD : Bool) :
    (platformOS ≠ "web" →
      hasDimensionsSupport platformOS hhs hmhs hps hms b = false)
    ∧ (hhs b = false → hmhs b = false → hps b = false → hms b = false →
        hasDimensionsSupport platformOS hhs hmhs hps hms b = false)
    ∧ (hasDimensionsSupport platformOS hhs hmhs hps hms b = false →
        dimensionsPanelReturnsNull hD mhD pD mD platformOS hhs hmhs hps hms b
          = true)
    ∧ (hD = true → mhD = true → pD = true → mD = true →
        dimensionsPanelReturnsNull hD mhD pD mD platformOS hhs hmhs hps hms b
          = true) := by
  refine ⟨?_, ?_, ?_, ?_⟩
  · intro h
    simp [hasDimensionsSupport, h]
  · intro h1 h2 h3 h4
    simp [hasDimensionsSupport, h1, h2, h3, h4]
  · intro h
    simp [dimensionsPanelReturnsNull, h]
  · intro h1 h2 h3 h4
    simp [dimensionsPanelReturnsNull, useIsDimensionsDisabled, h1, h2, h3, h4]

theorem hasDimensionsSupport_gates_panel_witness :
    hasDimensionsSupport "web" (fun _ => false) (fun _ => false)
      (fun _ => false) (fun _ => false) "core/paragraph" = false
    ∧ dimensionsPanelReturnsNull false false false false "web"
        (fun _ => false) (fun _ => false) (fun _ => false) (fun _ => false)
        "core/paragraph" = true :=
  ⟨(hasDimensionsSupport_gates_panel "web" (fun _ => false) (fun _ => false)
      (fun _ => false) (fun _ => false) "core/paragraph"
      false false false false).2.1 rfl rfl rfl rfl,
   (hasDimensionsSupport_gates_panel "web" (fun _ => false) (fun _ => false)
      (fun _ => false) (fun _ => false) "core/paragraph"
      false false false false).2.2.1
     ((hasDimensionsSupport_gates_panel "web" (fun _ => false)
        (fun _ => false) (fun _ => false) (fun _ => false) "core/paragraph"
        false false false false).2.1 rfl rfl rfl rfl)⟩

/-- C9: every entry of `__EXPERIMENTAL_STYLE_PROPERTY` is resolvable by its
logical property name (the keys are distinct) and carries a non-empty value
path and a non-empty support path, the sub-property mapping being optional;
the margin and padding entries have value path equal to support path
(`["spacing","margin"]` resp. `["spacing","padding"]`) and their sub-property
mappings target exactly the four sides top, right, bottom, left. -/
theorem styleProperty_table_resolvable :
    (__EXPERIMENTAL_STYLE_PROPERTY.map Prod.fst).Nodup
    ∧ (∀ e ∈ __EXPERIMENTAL_STYLE_PROPERTY, e.2.value ≠ [] ∧ e.2.support ≠ [])
    ∧ lookupStyleProperty __EXPERIMENTAL_STYLE_PROPERTY "margin"
        = some ⟨["spacing", "margin"], ["spacing", "margin"],
            some [("marginTop", "top"), ("marginRight", "right"),
              ("marginBottom", "bottom"), ("marginLeft", "left")]⟩
    ∧ lookupStyleProperty __EXPERIMENTAL_STYLE_PROPERTY "padding"
        = some ⟨["spacing", "padding"], ["spacing", "padding"],
            some [("paddingTop", "top"), ("paddingRight", "right"),
              ("paddingBottom", "bottom"), ("paddingLeft", "left")]⟩
    ∧ (lookupStyleProperty __EXPERIMENTAL_STYLE_PROPERTY "margin").map
        (fun e => (e.properties.map (fun ps => ps.map Prod.snd),
          decide (e.value = e.support)))
        = some (some ["top", "right", "bottom", "left"], true)
    ∧ (lookupStyleProperty __EXPERIMENTAL_STYLE_PROPERTY "padding").map
        (fun e => (e.properties.map (fun ps => ps.map Prod.snd),
          decide (e.value = e.support)))
        = some (some ["top", "right", "bottom", "left"], true) :=
  ⟨by decide, by decide, rfl, rfl, rfl, rfl⟩

/-- C10: the validator emits its warning if and only if it returns `false`;
in particular an empty declared list, a list containing only names outside
both side families, and an absent or boolean configuration are all reported
valid with no warning emitted. -/
theorem useIsDimensionsSupportValid_warn_iff_invalid
    (reg : String → SpacingSupport) (b f : String) :
    ((useIsDimensionsSupportValid reg b f).2 ≠ []
      ↔ (useIsDimensionsSupportValid reg b f).1 = false)
    ∧ (useCustomSides reg b f = none →
        useIsDimensionsSupportValid reg b f = (true, []))
    ∧ (useCustomSides reg b f = some [] →
        useIsDimensionsSupportValid reg b f = (true, []))
    ∧ (∀ sides, useCustomSides reg b f = some sides →
        sides.all (fun side => !ALL_SIDES.contains side
          && !AXIAL_SIDES.contains side) = true →
        useIsDimensionsSupportValid reg b f = (true, [])) := by
  refine ⟨?_, ?_, ?_, ?_⟩
  · cases hcs : useCustomSides reg b f with
    | none =>
        rw [useIsDimensionsSupportValid_eq_of_none hcs]
        simp
    | some sides =>
        rw [useIsDimensionsSupportValid_eq_of_some hcs]
        by_cases hmix : (sides.any (fun side => ALL_SIDES.contains side)
            && sides.any (fun side => AXIAL_SIDES.contains side)) = true
        · rw [if_pos hmix]
          simp
        · rw [if_neg hmix]
          simp
  · intro h
    exact useIsDimensionsSupportValid_eq_of_none h
  · intro h
    rw [useIsDimensionsSupportValid_eq_of_some h]
    rfl
  · intro sides h hall
    have h1 : sides.any (fun side => ALL_SIDES.contains side) = false := by
      rw [List.any_eq_false]
      intro x hx
      have h2 := List.all_eq_true.mp hall x hx
      simp only [Bool.and_eq_true, Bool.not_eq_true'] at h2
      simpa using h2.1
    have h2 : sides.any (fun side => AXIAL_SIDES.contains side) = false := by
      rw [List.any_eq_false]
      intro x hx
      have h3 := List.all_eq_true.mp hall x hx
      simp only [Bool.and_eq_true, Bool.not_eq_true'] at h3
      simpa using h3.2
    rw [useIsDimensionsSupportValid_eq_of_some h, if_neg (by rw [h1, h2]; simp)]

theorem useIsDimensionsSupportValid_warn_iff_invalid_witness :
    useIsDimensionsSupportValid (fun _ => SpacingSupport.missing) "core/group"
      "margin" = (true, []) :=
  (useIsDimensionsSupportValid_warn_iff_invalid (fun _ => .missing)
    "core/group" "margin").2.1 rfl

end GutenbergDims
